import Mathlib

/-!
# Verification of the insta-data-grabber extraction pipeline

Shallow embedding, in Lean 4, of the pure/deterministic parts of the
`SocialMediaScraper` class found in `src/index.ts` and in the second
variant of the class (`src/unnamed/part_000`):

* the normalizers (`parseLikeCount`, `parseCount`, `extractHashtags`);
* the post-type classifier (`determinePostType`);
* the retry runner (`retryOperation`), with attempt counting and the
  backoff-wait trace made explicit;
* the per-post processing loop of `scrapeUserProfile` (partial-failure
  policy, sample-size truncation, ordering);
* the follower-count derivations of both variants;
* the `close` lifecycle method, as a state transformer over the session.

JavaScript numbers are modelled exactly: a JS number that can be `NaN`
is an `Option ℚ` with `none` standing for `NaN`; integer-producing
paths use `ℤ`/`ℕ`.  Asynchronous effects (page navigation, DOM
evaluation) are modelled as explicit fallible oracles (`Except`),
since the spec treats the driven browser as an external collaborator.

The file is organized as definitions first, then the theorems.
-/

/-! ## Post-type classifier (`determinePostType`)

Both variants run, inside the page, the same priority cascade:
`video` element → "video"; a "Next" control → "carousel"; a reel
signal (in `src/unnamed/part_000` the URL path containing `/reel/`,
in `src/index.ts` a generic `[role="button"][tabindex="0"]` control)
→ "reel"; otherwise "image".  The three DOM probes are modelled as
boolean signals. -/

inductive PostType where
  | image
  | video
  | carousel
  | reel
deriving DecidableEq, Repr

/-- The DOM signals probed by `determinePostType`: presence of a
`video` element, of a "Next" pagination control, and of the reel
signal (reel URL route in `part_000`, generic interactive control in
`index.ts`). -/
structure DomSignals where
  hasVideo : Bool
  hasNext : Bool
  hasReelSignal : Bool
deriving DecidableEq, Repr

/-- `determinePostType` from `src/index.ts` lines 238–251 and
`src/unnamed/part_000` lines 512–523: the two variants differ only in
which DOM probe produces `hasReelSignal`. -/
def determinePostType (s : DomSignals) : PostType :=
  if s.hasVideo then .video
  else if s.hasNext then .carousel
  else if s.hasReelSignal then .reel
  else .image

/-! ## Session lifecycle (`close`)

`close` in both variants is `if (this.browser) await this.browser.close()`.
The state is the optional browser handle; the external `browser.close()`
primitive (§6 of the spec: an external collaborator) is modelled as
marking the handle closed, and per the driven-capability contract it
does not throw, so `close` is a total state transformer. -/

/-- A launched browser handle; `isOpen` records whether it has been
shut down. -/
structure BrowserHandle where
  isOpen : Bool
deriving DecidableEq, Repr

/-- The scraper's session state: `browser = none` before `initialize`
ever ran (never-opened). -/
structure ScraperState where
  browser : Option BrowserHandle
deriving DecidableEq, Repr

/-- The external `browser.close()` primitive: shuts the handle. -/
def browserClose (_b : BrowserHandle) : BrowserHandle :=
  { isOpen := false }

/-- `close` from `src/index.ts` lines 253–257 / `part_000` lines
530–534: call `browser.close()` only when a browser handle exists. -/
def closeSession (s : ScraperState) : ScraperState :=
  match s.browser with
  | none => s
  | some b => { browser := some (browserClose b) }

/-! ## Resilient operation runner (`retryOperation`)

`retryOperation` from `src/index.ts` lines 95–113:

```ts
let lastError;
for (let i = 0; i < retries; i++) {
  try { return await operation(); }
  catch (error) {
    lastError = error;
    if (i < retries - 1) {
      await new Promise((resolve) => setTimeout(resolve, delay));
      delay *= 2; // Exponential backoff
    }
  }
}
throw lastError;
```

The operation is modelled as a function of the attempt index (the JS
closure may behave differently on each call).  The embedding returns
the full observable trace: the outcome (`Except (Option E) T`, where
throwing the uninitialized `lastError` — JS `undefined` — is
`.error none`), the number of times the operation was executed, and
the list of backoff waits performed, in order.  `retries` is an `ℤ`
because the JS loop `for (let i = 0; i < retries; ...)` also accepts
non-positive counts (zero iterations). -/

/-- Observable trace of one `retryOperation` run: outcome, number of
executions of the operation, and the backoff waits (ms) in order. -/
structure RetryTrace (E T : Type) where
  result : Except (Option E) T
  calls : ℕ
  waits : List ℕ
deriving Repr

/-- The loop of `retryOperation`, from iteration `i` with accumulated
`lastError` and current `delay`. -/
def retryAux {E T : Type} (op : ℤ → Except E T) (retries : ℤ) (i : ℤ)
    (lastError : Option E) (delay : ℕ) : RetryTrace E T :=
  if _h : i < retries then
    match op i with
    | .ok v => ⟨.ok v, 1, []⟩
    | .error e =>
      if i < retries - 1 then
        let r := retryAux op retries (i + 1) (some e) (delay * 2)
        ⟨r.result, r.calls + 1, delay :: r.waits⟩
      else
        let r := retryAux op retries (i + 1) (some e) delay
        ⟨r.result, r.calls + 1, r.waits⟩
  else ⟨.error lastError, 0, []⟩
termination_by (retries - i).toNat
decreasing_by
  all_goals omega

/-- `retryOperation(operation, retries, delay)`: run the loop from
`i = 0` with `lastError` uninitialized (`none` = JS `undefined`). -/
def retryOperation {E T : Type} (op : ℤ → Except E T) (retries : ℤ)
    (delay : ℕ) : RetryTrace E T :=
  retryAux op retries 0 none delay

/-- An operation that fails on attempts 0 and 1 and succeeds (with
value 42) from attempt 2 on. -/
def opFailTwice : ℤ → Except ℕ ℕ :=
  fun i => if i < 2 then .error (1000 + i).toNat else .ok 42

/-- An operation that fails on every attempt. -/
def opAlwaysFail : ℤ → Except ℕ ℕ :=
  fun i => .error i.toNat

/-- An operation that always succeeds immediately. -/
def opNever : ℤ → Except ℕ ℕ :=
  fun _ => .ok 0

/-! ## JS numeric primitives

Exact models (over `ℚ`, with `none` = `NaN`) of the JavaScript number
parsing primitives the two count parsers use: `parseFloat`,
`parseInt(s, 10)` and radix-less `parseInt(s)`.  The JS `\s` class
and `toLowerCase` are modelled on the ASCII range, which covers every
character that can influence the parsers' numeric alphabet. -/

/-- JS `\s` / `parseInt`-skipped whitespace, ASCII part. -/
def jsWhitespace (c : Char) : Bool :=
  c.toNat = 32 || c.toNat = 9 || c.toNat = 10 || c.toNat = 13 ||
    c.toNat = 11 || c.toNat = 12

/-- ASCII decimal digit (the `\d` class). -/
def isDigitC (c : Char) : Bool :=
  48 ≤ c.toNat && c.toNat ≤ 57

/-- Base-10 value of a list of ASCII digits. -/
def digitsVal (l : List Char) : ℕ :=
  l.foldl (fun acc c => acc * 10 + (c.toNat - 48)) 0

/-- ASCII hex digit. -/
def isHexDigit (c : Char) : Bool :=
  isDigitC c || (97 ≤ c.toNat && c.toNat ≤ 102) || (65 ≤ c.toNat && c.toNat ≤ 70)

/-- Value of one hex digit. -/
def hexDigitVal (c : Char) : ℕ :=
  if isDigitC c then c.toNat - 48
  else if 97 ≤ c.toNat && c.toNat ≤ 102 then c.toNat - 87
  else c.toNat - 55

/-- Base-16 value of a list of hex digits. -/
def hexVal (l : List Char) : ℕ :=
  l.foldl (fun acc c => acc * 16 + hexDigitVal c) 0

/-- Strip an optional leading sign; `true` means negative. -/
def splitSign (cs : List Char) : Bool × List Char :=
  if cs.head? == some '+' then (false, cs.tail)
  else if cs.head? == some '-' then (true, cs.tail)
  else (false, cs)

/-- Exponent body after the `e`/`E` marker: optional sign then
digits; an exponent with no digits is not consumed (counts as 0). -/
def parseExpBody (cs : List Char) : ℤ :=
  let p := splitSign cs
  let d := p.2.takeWhile isDigitC
  if d.isEmpty then 0 else (if p.1 then -1 else 1) * digitsVal d

/-- Optional exponent part of a JS float literal: only consumed after
an `e`/`E` marker. -/
def parseExponent (cs : List Char) : ℤ :=
  if cs.head? == some 'e' || cs.head? == some 'E' then parseExpBody cs.tail
  else 0

/-- JS `parseFloat`: skip whitespace, optional sign, longest decimal
mantissa `d1 [. d2]` (needing at least one digit overall), optional
exponent; `NaN` (= `none`) when no digit is found; the rest of the
string is ignored.  (The case-sensitive literal `Infinity` cannot
occur in this program's lower-cased inputs and is not modelled.)
When there is no dot, `d2` is empty and contributes 0, giving the
same value as the dot-less grammar branch. -/
def parseFloatJS (cs0 : List Char) : Option ℚ :=
  let cs1 := cs0.dropWhile jsWhitespace
  let p := splitSign cs1
  let sgn : ℚ := if p.1 then -1 else 1
  let d1 := p.2.takeWhile isDigitC
  let r1 := p.2.dropWhile isDigitC
  let hasDot : Bool := r1.head? == some '.'
  let d2 := if hasDot then r1.tail.takeWhile isDigitC else []
  let r3 := if hasDot then r1.tail.dropWhile isDigitC else r1
  if d1.isEmpty && d2.isEmpty then none
  else some (sgn * ((digitsVal d1 : ℚ) + (digitsVal d2 : ℚ) / 10 ^ d2.length)
    * (10 : ℚ) ^ parseExponent r3)

/-- JS `parseInt(s, 10)`: skip whitespace, optional sign, longest
digit prefix; `NaN` (= `none`) when no digit follows. -/
def parseIntRadix10 (s : String) : Option ℤ :=
  let cs1 := s.data.dropWhile jsWhitespace
  let p := splitSign cs1
  let d := p.2.takeWhile isDigitC
  if d.isEmpty then none
  else some ((if p.1 then -1 else 1) * (digitsVal d : ℤ))

/-- Radix-less JS `parseInt(s)`: as `parseInt(s, 10)` except that a
`0x`/`0X` prefix switches to base 16. -/
def parseIntNoRadix (cs0 : List Char) : Option ℤ :=
  let cs1 := cs0.dropWhile jsWhitespace
  let p := splitSign cs1
  let sgn : ℤ := if p.1 then -1 else 1
  if p.2.head? == some '0' &&
      (p.2.tail.head? == some 'x' || p.2.tail.head? == some 'X') then
    let d := p.2.tail.tail.takeWhile isHexDigit
    if d.isEmpty then none else some (sgn * (hexVal d : ℤ))
  else
    let d := p.2.takeWhile isDigitC
    if d.isEmpty then none else some (sgn * (digitsVal d : ℤ))

/-! ## Count parsers

`parseLikeCount` from `src/index.ts` lines 80–93:

```ts
const cleanText = text.replace(/[,\s]/g, "").toLowerCase();
if (cleanText.includes("k")) return parseFloat(cleanText) * 1000;
if (cleanText.includes("m")) return parseFloat(cleanText) * 1000000;
return parseInt(cleanText) || 0;
```

`parseCount` from `src/unnamed/part_000` lines 466–476:

```ts
const multipliers = { k: 1000, m: 1000000, b: 1000000000 };
const normalized = count.toLowerCase().replace(/,/g, "");
const match = normalized.match(/^([\d.]+)([kmb])?$/);
if (!match) return 0;
const [, num, unit] = match;
const value = parseFloat(num);
return unit ? value * multipliers[unit] : value;
```

`Char.toLower` models JS `toLowerCase` on the ASCII range (the only
range that can produce the parsers' `[\d.kmb]` alphabet, apart from
the exotic Kelvin sign `K`). -/

/-- Digit or dot: the `[\d.]` class of `parseCount`'s regex. -/
def isDigitDot (c : Char) : Bool :=
  isDigitC c || c = '.'

/-- The `multipliers` table of `parseCount`. -/
def multiplier (u : Char) : ℚ :=
  if u = 'k' then 1000 else if u = 'm' then 1000000 else 1000000000

/-- Matching `normalized` against `/^([\d.]+)([kmb])?$/`: either the
whole string is a non-empty run of `[\d.]`, or it is such a run
followed by a single `k`/`m`/`b`.  Returns the captured `(num, unit)`
pair, or `none` when the regex does not match. -/
def splitUnit (cs : List Char) : Option (List Char × Option Char) :=
  if !cs.isEmpty && cs.all isDigitDot then
    some (cs, none)
  else
    match cs.getLast? with
    | some u =>
      if (u = 'k' || u = 'm' || u = 'b') && !cs.dropLast.isEmpty
          && cs.dropLast.all isDigitDot then
        some (cs.dropLast, some u)
      else none
    | none => none

/-- `count.toLowerCase().replace(/,/g, "")` of `parseCount`. -/
def normalizeCount (cs : List Char) : List Char :=
  (cs.map Char.toLower).filter (fun c => c ≠ ',')

/-- `parseCount` (`src/unnamed/part_000` lines 466–476); `none` is
`NaN`. -/
def parseCount (count : String) : Option ℚ :=
  match splitUnit (normalizeCount count.data) with
  | none => some 0
  | some (num, unit) =>
    match unit with
    | some u => (parseFloatJS num).map (fun v => v * multiplier u)
    | none => parseFloatJS num

/-- `text.replace(/[,\s]/g, "").toLowerCase()` of `parseLikeCount`. -/
def cleanLike (cs : List Char) : List Char :=
  (cs.filter (fun c => !(c = ',' || jsWhitespace c))).map Char.toLower

/-- `parseLikeCount` (`src/index.ts` lines 80–93); `none` is `NaN`.
The `try`/`catch` wrapper is dead (no operation inside throws), and
`parseInt(cleanText) || 0` collapses a `NaN` (and `0`) to `0`. -/
def parseLikeCount (text : String) : Option ℚ :=
  let clean := cleanLike text.data
  if clean.contains 'k' then (parseFloatJS clean).map (· * 1000)
  else if clean.contains 'm' then (parseFloatJS clean).map (· * 1000000)
  else
    match parseIntNoRadix clean with
    | none => some 0
    | some n => some (n : ℚ)

/-! ## Follower / following count derivation

`src/index.ts` lines 147–163 derive the counts with

```ts
const element = document.querySelector("header section ul li:nth-child(2) span");
return element ? parseInt(element.textContent || "0", 10) : 0;
```

`src/unnamed/part_000` lines 418–437 instead read the raw text
(`followerElement?.innerText || "0"`) and run it through
`parseCount`.  The element's text is an `Option String` (`none` = the
element is absent); a `null`/empty text falls back to `"0"` via
`|| "0"`. -/

/-- The `|| "0"` fallback applied to an extracted text. -/
def textOrZero (t : String) : String :=
  if t = "" then "0" else t

/-- `followersCount`/`followingCount` extraction of `src/index.ts`:
`element ? parseInt(element.textContent || "0", 10) : 0`; `none` is
`NaN`. -/
def followersFromHeader (el : Option String) : Option ℤ :=
  match el with
  | none => some 0
  | some t => parseIntRadix10 (textOrZero t)

/-- `followersCount`/`followingCount` derivation of
`src/unnamed/part_000`: `parseCount(followerElement?.innerText || "0")`;
`none` is `NaN`. -/
def followersFromHeaderAlt (el : Option String) : Option ℚ :=
  parseCount (textOrZero (match el with | none => "" | some t => t))

/-! ## Hashtag extractor

`extractHashtags` in both variants (`src/index.ts` lines 75–78,
`part_000` lines 525–528):

```ts
const hashtagRegex = /#[\w֐-׿]+/g;
return text.match(hashtagRegex) || [];
```

A global regex scan: at each position, a match is `#` followed by a
maximal non-empty run of word characters (`\w` = ASCII letters,
digits, underscore, since the regex has no Unicode flag) or
characters in the U+0590–U+05FF block; matches are reported left to
right and do not overlap; `match` returns `null` (→ `[]`) when there
is none. -/

/-- The character class `[\w֐-׿]`. -/
def isWordChar (c : Char) : Bool :=
  isDigitC c || (97 ≤ c.toNat && c.toNat ≤ 122) || (65 ≤ c.toNat && c.toNat ≤ 90)
    || c.toNat = 95 || (1424 ≤ c.toNat && c.toNat ≤ 1535)

/-- Left-to-right global scan for the hashtag regex: on a `#`
followed by at least one word character, emit the maximal-munch token
and resume after it; otherwise advance one position. -/
def extractHashtagsAux : List Char → List String
  | [] => []
  | c :: rest =>
    if c = '#' then
      let run := rest.takeWhile isWordChar
      if run.isEmpty then extractHashtagsAux rest
      else String.mk ('#' :: run) :: extractHashtagsAux (rest.dropWhile isWordChar)
    else extractHashtagsAux rest
termination_by cs => cs.length
decreasing_by
  · simp
  · have := (@List.dropWhile_sublist Char rest isWordChar).length_le
    simp
    omega
  · simp

/-- `extractHashtags` on a string. -/
def extractHashtags (text : String) : List String :=
  extractHashtagsAux text.data

/-- Whether the text contains at least one `#token` occurrence, i.e.
a `#` immediately followed by a word character. -/
def hasTagOcc : List Char → Bool
  | c1 :: c2 :: rest => (c1 = '#' && isWordChar c2) || hasTagOcc (c2 :: rest)
  | _ => false

/-! ## Per-post processing loop of `scrapeUserProfile`

`src/index.ts` lines 168–223: the collected post links are the DOM
anchors truncated to the sample size 4 (`slice(0, 4)`); then, for
each link, the loop navigates, evaluates the post page (caption,
likes text, timestamp), classifies the type, normalizes, and pushes
one `PostData` — any failure in the body is caught, logged, and the
loop continues with the next link.  `part_000` lines 443–451 differ
only in where `slice(0, 4)` is applied and in using `parseCount`.

The per-link page interaction (navigation plus the page-evaluations,
through the retry runner) is a fallible oracle
`fetch : String → Except Unit PostPageView`. -/

/-- One scraped post record (`PostData` in `src/index.ts` lines
3–10); `likes` can be `NaN` (`none`). -/
structure PostData where
  type : PostType
  likes : Option ℚ
  hashtags : List String
  caption : String
  postUrl : String
  timestamp : String

/-- Raw values the post page yields when its processing succeeds:
the three extracted texts and the DOM signals for classification. -/
structure PostPageView where
  caption : String
  likesText : String
  timestamp : String
  signals : DomSignals

/-- The body of the per-post loop for one link (`src/index.ts` lines
181–223): on success, build the `PostData` (note `postUrl := link`);
on failure, return the error to be caught by the loop. -/
def processPost (fetch : String → Except Unit PostPageView) (link : String) :
    Except Unit PostData :=
  match fetch link with
  | .error e => .error e
  | .ok v =>
    .ok { type := determinePostType v.signals
          likes := parseLikeCount v.likesText
          hashtags := extractHashtags v.caption
          caption := v.caption
          postUrl := link
          timestamp := v.timestamp }

/-- The per-post loop: a failing link is skipped (`catch` +
`continue`), a successful one appends its record; the loop itself
never fails (it is a total function into `List PostData`). -/
def processPosts (fetch : String → Except Unit PostPageView) :
    List String → List PostData
  | [] => []
  | l :: rest =>
    match processPost fetch l with
    | .ok pd => pd :: processPosts fetch rest
    | .error _ => processPosts fetch rest

/-- Truncation of the collected DOM anchors to the sample size
(`slice(0, 4)`, `src/index.ts` line 174). -/
def collectPostLinks (domLinks : List String) : List String :=
  domLinks.take 4

/-- The posts portion of `scrapeUserProfile`: collect, truncate,
traverse. -/
def scrapePostsSection (fetch : String → Except Unit PostPageView)
    (domLinks : List String) : List PostData :=
  processPosts fetch (collectPostLinks domLinks)

/-- A demonstration oracle failing exactly on the link `"bad"`. -/
def fetchDemo : String → Except Unit PostPageView :=
  fun l => if l = "bad" then .error ()
    else .ok ⟨"", "0", "", ⟨false, false, false⟩⟩

/-! ## Helper lemmas: retry runner -/

/-- The geometric wait list for `n + 1` waits starts with the bare
`delay` and continues with the doubled-delay list. -/
theorem geomWaits_succ (delay n : ℕ) :
    (List.range (n + 1)).map (fun k => delay * 2 ^ k) =
      delay :: (List.range n).map (fun k => delay * 2 * 2 ^ k) := by
  rw [List.range_succ_eq_map]
  simp only [List.map_cons, pow_zero, mul_one, List.map_map]
  have hf : ((fun k => delay * 2 ^ k) ∘ Nat.succ) = (fun k => delay * 2 * 2 ^ k) := by
    funext k
    simp [Function.comp, pow_succ]
    ring
  rw [hf]

/-- The loop performs at most `retries - i` further executions. -/
theorem retryAux_calls_le {E T : Type} (op : ℤ → Except E T) (retries i : ℤ)
    (last : Option E) (delay : ℕ) :
    (retryAux op retries i last delay).calls ≤ (retries - i).toNat := by
  induction i, last, delay using retryAux.induct op retries with
  | case1 i last delay hlt v hop =>
    rw [retryAux]
    simp [hlt, hop]
    omega
  | case2 i last delay hlt e hop hlt2 ih =>
    rw [retryAux]
    simp [hlt, hop, hlt2]
    omega
  | case3 i last delay hlt e hop hlt2 ih =>
    rw [retryAux]
    simp [hlt, hop, hlt2]
    omega
  | case4 i last delay hlt =>
    rw [retryAux]
    simp [hlt]

/-- Full trace of the loop when every remaining attempt fails: the
final attempt's error is propagated, every remaining iteration runs,
and a doubled wait follows every failure but the final one. -/
theorem retryAux_allFail {E T : Type} (op : ℤ → Except E T) (retries : ℤ)
    (err : ℤ → E) (i : ℤ) (last : Option E) (delay : ℕ) :
    i < retries → (∀ j, i ≤ j → j < retries → op j = .error (err j)) →
    retryAux op retries i last delay =
      ⟨.error (some (err (retries - 1))), (retries - i).toNat,
       (List.range (retries - 1 - i).toNat).map (fun k => delay * 2 ^ k)⟩ := by
  induction i, last, delay using retryAux.induct op retries with
  | case1 i last delay hlt v hop =>
    intro _ hall
    rw [hall i le_rfl hlt] at hop
    exact absurd hop (by simp)
  | case2 i last delay hlt e hop hlt2 ih =>
    intro _ hall
    have he : e = err i := by
      have := hall i le_rfl hlt
      rw [this] at hop
      exact (Except.error.inj hop).symm
    have ihh := ih (by omega) (fun j hj1 hj2 => hall j (by omega) hj2)
    rw [retryAux]
    simp only [hlt, hop, hlt2, dif_pos, if_pos]
    rw [ihh]
    have h2 : (retries - 1 - i).toNat = (retries - 1 - (i + 1)).toNat + 1 := by omega
    simp only [RetryTrace.mk.injEq]
    refine ⟨by trivial, by omega, ?_⟩
    rw [h2, geomWaits_succ]
  | case3 i last delay hlt e hop hlt2 ih =>
    intro _ hall
    have hi : i = retries - 1 := by omega
    have he : e = err i := by
      have := hall i le_rfl hlt
      rw [this] at hop
      exact (Except.error.inj hop).symm
    rw [retryAux]
    simp only [hlt, hop, hlt2, dif_pos, if_neg, not_false_iff]
    rw [retryAux]
    have hn : ¬ (i + 1 < retries) := by omega
    simp only [hn, dif_neg, not_false_iff]
    simp only [RetryTrace.mk.injEq]
    refine ⟨by rw [he, hi], by omega, ?_⟩
    have h0 : (retries - 1 - i).toNat = 0 := by omega
    simp [h0]
  | case4 i last delay hlt =>
    intro h
    exact absurd h hlt

/-- Full trace of the loop when the first success happens at attempt
`k`: the success value is returned after exactly `k - i + 1`
executions, with a doubled wait after each of the `k - i` failures. -/
theorem retryAux_firstSuccess {E T : Type} (op : ℤ → Except E T) (retries : ℤ)
    (err : ℤ → E) (k : ℤ) (v : T) (i : ℤ) (last : Option E) (delay : ℕ) :
    i ≤ k → k < retries → (∀ j, i ≤ j → j < k → op j = .error (err j)) →
    op k = .ok v →
    retryAux op retries i last delay =
      ⟨.ok v, (k - i).toNat + 1,
       (List.range (k - i).toNat).map (fun m => delay * 2 ^ m)⟩ := by
  induction i, last, delay using retryAux.induct op retries with
  | case1 i last delay hlt v' hop =>
    intro hik hk hfail hok
    rcases eq_or_lt_of_le hik with heq | hlt2
    · subst heq
      have hv : v' = v := by
        rw [hop] at hok
        exact Except.ok.inj hok
      rw [retryAux]
      simp only [hlt, hop, dif_pos]
      have h0 : (i - i).toNat = 0 := by omega
      simp [hv, h0]
    · rw [hfail i le_rfl hlt2] at hop
      exact absurd hop (by simp)
  | case2 i last delay hlt e hop hlt2 ih =>
    intro hik hk hfail hok
    have hlt3 : i < k := by
      rcases eq_or_lt_of_le hik with heq | h
      · subst heq
        rw [hok] at hop
        exact absurd hop (by simp)
      · exact h
    have ihh := ih (by omega) hk (fun j hj1 hj2 => hfail j (by omega) hj2) hok
    rw [retryAux]
    simp only [hlt, hop, hlt2, dif_pos, if_pos]
    rw [ihh]
    have h2 : (k - i).toNat = (k - (i + 1)).toNat + 1 := by omega
    simp only [RetryTrace.mk.injEq]
    refine ⟨by trivial, by omega, ?_⟩
    rw [h2, geomWaits_succ]
  | case3 i last delay hlt e hop hlt2 ih =>
    intro hik hk hfail hok
    have hki : k = i := by omega
    rw [hki, hop] at hok
    exact absurd hok (by simp)
  | case4 i last delay hlt =>
    intro hik hk hfail hok
    omega

/-! ## Helper lemmas: character classes and list prefixes -/

/-- Unfolding of `isDigitC` to arithmetic on the code point. -/
theorem isDigitC_toNat (c : Char) (h : isDigitC c = true) :
    48 ≤ c.toNat ∧ c.toNat ≤ 57 := by
  simpa [isDigitC] using h

/-- Equal characters have equal code points. -/
theorem char_eq_toNat (c d : Char) (h : c = d) : c.toNat = d.toNat := by
  rw [h]

/-- A digit is not JS whitespace. -/
theorem digit_not_ws (c : Char) (h : isDigitC c = true) : jsWhitespace c = false := by
  have := isDigitC_toNat c h
  simp [jsWhitespace]
  omega

/-- A digit is not `+`. -/
theorem digit_ne_plus (c : Char) (h : isDigitC c = true) : c ≠ '+' := by
  intro he
  have := isDigitC_toNat c h
  have h2 := char_eq_toNat c '+' he
  simp at h2
  omega

/-- A digit is not `-`. -/
theorem digit_ne_minus (c : Char) (h : isDigitC c = true) : c ≠ '-' := by
  intro he
  have := isDigitC_toNat c h
  have h2 := char_eq_toNat c '-' he
  simp at h2
  omega

/-- A digit is not `.`. -/
theorem digit_ne_dot (c : Char) (h : isDigitC c = true) : c ≠ '.' := by
  intro he
  have := isDigitC_toNat c h
  have h2 := char_eq_toNat c '.' he
  simp at h2
  omega

/-- A digit is not `,`. -/
theorem digit_ne_comma (c : Char) (h : isDigitC c = true) : c ≠ ',' := by
  intro he
  have := isDigitC_toNat c h
  have h2 := char_eq_toNat c ',' he
  simp at h2
  omega

/-- `toLowerCase` fixes digits. -/
theorem digit_toLower (c : Char) (h : isDigitC c = true) : c.toLower = c := by
  have := isDigitC_toNat c h
  unfold Char.toLower
  rw [if_neg]
  omega

/-- `dropWhile` is the identity when the head fails the predicate. -/
theorem dropWhile_head_false (p : Char → Bool) (l : List Char)
    (h : ∀ c, l.head? = some c → p c = false) : l.dropWhile p = l := by
  cases l with
  | nil => rfl
  | cons a t =>
    rw [List.dropWhile_cons, if_neg]
    simp [h a rfl]

/-- `takeWhile` over `l ++ r` takes exactly `l` when `l` is all-true
and `r` starts false. -/
theorem takeWhile_all_append (p : Char → Bool) (l r : List Char)
    (hl : ∀ c ∈ l, p c = true) (hr : ∀ c, r.head? = some c → p c = false) :
    (l ++ r).takeWhile p = l := by
  induction l with
  | nil =>
    simp only [List.nil_append]
    cases r with
    | nil => rfl
    | cons a t =>
      rw [List.takeWhile_cons, if_neg]
      simp [hr a rfl]
  | cons a t ih =>
    rw [List.cons_append, List.takeWhile_cons, if_pos]
    · rw [ih (fun c hc => hl c (List.mem_cons_of_mem a hc))]
    · simp [hl a (List.mem_cons_self a t)]

/-- `dropWhile` over `l ++ r` drops exactly `l` when `l` is all-true
and `r` starts false. -/
theorem dropWhile_all_append (p : Char → Bool) (l r : List Char)
    (hl : ∀ c ∈ l, p c = true) (hr : ∀ c, r.head? = some c → p c = false) :
    (l ++ r).dropWhile p = r := by
  induction l with
  | nil =>
    simp only [List.nil_append]
    exact dropWhile_head_false p r hr
  | cons a t ih =>
    rw [List.cons_append, List.dropWhile_cons, if_pos]
    · exact ih (fun c hc => hl c (List.mem_cons_of_mem a hc))
    · simp [hl a (List.mem_cons_self a t)]

/-- `splitSign` does not consume anything when the head is not a
sign. -/
theorem splitSign_no_sign (cs : List Char)
    (h : ∀ c, cs.head? = some c → (c ≠ '+' ∧ c ≠ '-')) :
    splitSign cs = (false, cs) := by
  cases cs with
  | nil => rfl
  | cons a t =>
    have := h a rfl
    rw [splitSign]
    rw [if_neg, if_neg]
    · simp [this.2]
    · simp [this.1]

/-- No exponent is parsed when the remainder does not start with the
marker. -/
theorem parseExponent_zero (rest : List Char)
    (h : ∀ c, rest.head? = some c → (c ≠ 'e' ∧ c ≠ 'E')) :
    parseExponent rest = 0 := by
  cases rest with
  | nil => rfl
  | cons a t =>
    have := h a rfl
    rw [parseExponent, if_neg]
    simp [this.1, this.2]

/-! ## Helper lemmas: `parseFloat` and the `parseCount` pipeline -/

/-- `parseFloat` on a non-empty all-digit prefix followed by a
non-numeric remainder: the digits' value times the (possible)
exponent factor. -/
theorem parseFloatJS_int (d rest : List Char) (hd : d ≠ [])
    (hdig : ∀ c ∈ d, isDigitC c = true)
    (hr : ∀ c, rest.head? = some c → (isDigitC c = false ∧ c ≠ '.')) :
    parseFloatJS (d ++ rest) =
      some ((digitsVal d : ℚ) * (10 : ℚ) ^ parseExponent rest) := by
  have hhead : ∀ c, (d ++ rest).head? = some c → isDigitC c = true := by
    intro c hc
    cases d with
    | nil => exact absurd rfl hd
    | cons a t =>
      simp at hc
      rw [← hc]
      exact hdig a (List.mem_cons_self a t)
  have hws : (d ++ rest).dropWhile jsWhitespace = d ++ rest :=
    dropWhile_head_false _ _ (fun c hc => digit_not_ws c (hhead c hc))
  have hsgn : splitSign (d ++ rest) = (false, d ++ rest) :=
    splitSign_no_sign _ (fun c hc =>
      ⟨digit_ne_plus c (hhead c hc), digit_ne_minus c (hhead c hc)⟩)
  have htake : (d ++ rest).takeWhile isDigitC = d :=
    takeWhile_all_append _ _ _ hdig (fun c hc => (hr c hc).1)
  have hdrop : (d ++ rest).dropWhile isDigitC = rest :=
    dropWhile_all_append _ _ _ hdig (fun c hc => (hr c hc).1)
  have hnodot : (rest.head? == some '.') = false := by
    cases hh : rest.head? with
    | none => rfl
    | some c => simp [(hr c hh).2]
  have hde : d.isEmpty = false := by
    cases d with
    | nil => exact absurd rfl hd
    | cons a t => rfl
  rw [parseFloatJS]
  simp only [hws, hsgn, htake, hdrop, hnodot, hde, Bool.false_eq_true,
    if_false, List.isEmpty_nil, Bool.and_true, List.length_nil]
  congr 1
  simp [digitsVal]

/-- `parseFloat` on `d1 . d2 rest` with digit blocks `d1`, `d2` (at
least one non-empty) and a non-digit remainder: the exact decimal
value times the (possible) exponent factor. -/
theorem parseFloatJS_dot (d1 d2 rest : List Char)
    (h1 : ∀ c ∈ d1, isDigitC c = true) (h2 : ∀ c ∈ d2, isDigitC c = true)
    (hne : d1 ≠ [] ∨ d2 ≠ [])
    (hr : ∀ c, rest.head? = some c → isDigitC c = false) :
    parseFloatJS (d1 ++ '.' :: (d2 ++ rest)) =
      some (((digitsVal d1 : ℚ) + (digitsVal d2 : ℚ) / 10 ^ d2.length)
        * (10 : ℚ) ^ parseExponent rest) := by
  have hhead : ∀ c, (d1 ++ '.' :: (d2 ++ rest)).head? = some c →
      (isDigitC c = true ∨ c = '.') := by
    intro c hc
    cases d1 with
    | nil =>
      simp at hc
      exact Or.inr hc.symm
    | cons a t =>
      simp at hc
      exact Or.inl (hc ▸ h1 a (List.mem_cons_self a t))
  have hws : (d1 ++ '.' :: (d2 ++ rest)).dropWhile jsWhitespace =
      d1 ++ '.' :: (d2 ++ rest) := by
    refine dropWhile_head_false _ _ (fun c hc => ?_)
    rcases hhead c hc with h | h
    · exact digit_not_ws c h
    · subst h
      decide
  have hsgn : splitSign (d1 ++ '.' :: (d2 ++ rest)) =
      (false, d1 ++ '.' :: (d2 ++ rest)) := by
    refine splitSign_no_sign _ (fun c hc => ?_)
    rcases hhead c hc with h | h
    · exact ⟨digit_ne_plus c h, digit_ne_minus c h⟩
    · subst h
      exact ⟨by decide, by decide⟩
  have hdothead : ∀ c : Char, (('.' : Char) :: (d2 ++ rest)).head? = some c →
      isDigitC c = false := by
    intro c hc
    simp at hc
    rw [← hc]
    decide
  have htake : (d1 ++ '.' :: (d2 ++ rest)).takeWhile isDigitC = d1 :=
    takeWhile_all_append _ _ _ h1 hdothead
  have hdrop : (d1 ++ '.' :: (d2 ++ rest)).dropWhile isDigitC =
      '.' :: (d2 ++ rest) :=
    dropWhile_all_append _ _ _ h1 hdothead
  have htake2 : (d2 ++ rest).takeWhile isDigitC = d2 :=
    takeWhile_all_append _ _ _ h2 hr
  have hdrop2 : (d2 ++ rest).dropWhile isDigitC = rest :=
    dropWhile_all_append _ _ _ h2 hr
  have hempty : (d1.isEmpty && d2.isEmpty) = false := by
    rcases hne with h | h
    · cases d1 with
      | nil => exact absurd rfl h
      | cons a t => rfl
    · cases d2 with
      | nil => exact absurd rfl h
      | cons a t => simp
  rw [parseFloatJS]
  simp only [hws, hsgn, htake, hdrop, List.head?_cons, beq_self_eq_true,
    if_true, List.tail_cons, htake2, hdrop2, hempty, Bool.false_eq_true,
    if_false]
  simp

/-- A digit is in the `[\d.]` class. -/
theorem digit_isDigitDot (c : Char) (h : isDigitC c = true) :
    isDigitDot c = true := by
  simp [isDigitDot, h]

/-- The unit characters are not in the `[\d.]` class. -/
theorem unit_not_digitDot (u : Char) (hu : u = 'k' ∨ u = 'm' ∨ u = 'b') :
    isDigitDot u = false := by
  rcases hu with h | h | h <;> subst h <;> decide

/-- The regex match on a plain non-empty `[\d.]` run: no unit
captured. -/
theorem splitUnit_nounit (ds : List Char) (hds : ds ≠ [])
    (hall : ∀ c ∈ ds, isDigitDot c = true) :
    splitUnit ds = some (ds, none) := by
  have he : ds.isEmpty = false := by
    cases ds with
    | nil => exact absurd rfl hds
    | cons a t => rfl
  have ha : ds.all isDigitDot = true := List.all_eq_true.mpr hall
  rw [splitUnit, if_pos]
  simp [he, ha]

/-- The regex match on a non-empty `[\d.]` run followed by one unit
character. -/
theorem splitUnit_unit (ds : List Char) (u : Char) (hds : ds ≠ [])
    (hall : ∀ c ∈ ds, isDigitDot c = true) (hu : u = 'k' ∨ u = 'm' ∨ u = 'b') :
    splitUnit (ds ++ [u]) = some (ds, some u) := by
  have hnall : (ds ++ [u]).all isDigitDot = false := by
    refine List.all_eq_false.mpr ⟨u, ?_, ?_⟩
    · simp
    · simp [unit_not_digitDot u hu]
  have hlast : (ds ++ [u]).getLast? = some u := List.getLast?_concat ds
  have hdl : (ds ++ [u]).dropLast = ds := List.dropLast_concat
  have he : ds.isEmpty = false := by
    cases ds with
    | nil => exact absurd rfl hds
    | cons a t => rfl
  have ha : ds.all isDigitDot = true := List.all_eq_true.mpr hall
  rw [splitUnit, if_neg]
  · simp only [hlast, hdl, he, ha]
    rcases hu with h | h | h <;> subst h <;> simp
  · simp [hnall]

/-- `toLowerCase` + comma-stripping leaves a string over the
`[\d.kmb]` alphabet untouched. -/
theorem normalizeCount_id (cs : List Char)
    (h : ∀ c ∈ cs, isDigitC c = true ∨ c = '.' ∨ c = 'k' ∨ c = 'm' ∨ c = 'b') :
    normalizeCount cs = cs := by
  rw [normalizeCount]
  have hmap : cs.map Char.toLower = cs := by
    have hfix : ∀ c ∈ cs, Char.toLower c = c := by
      intro c hc
      rcases h c hc with hd | h' | h' | h' | h'
      · exact digit_toLower c hd
      · subst h'
        decide
      · subst h'
        decide
      · subst h'
        decide
      · subst h'
        decide
    induction cs with
    | nil => rfl
    | cons a t ih =>
      rw [List.map_cons, hfix a (List.mem_cons_self a t),
        ih (fun c hc => h c (List.mem_cons_of_mem a hc))
          (fun c hc => hfix c (List.mem_cons_of_mem a hc))]
  rw [hmap]
  refine List.filter_eq_self.mpr (fun c hc => ?_)
  rcases h c hc with hd | h' | h' | h' | h'
  · simp [digit_ne_comma c hd]
  · subst h'
    decide
  · subst h'
    decide
  · subst h'
    decide
  · subst h'
    decide

/-- `parseCount` on `<digits><unit>`: the digits' value times the
unit factor, exactly. -/
theorem parseCount_units (ds : List Char) (u : Char) (hds : ds ≠ [])
    (hdig : ∀ c ∈ ds, isDigitC c = true) (hu : u = 'k' ∨ u = 'm' ∨ u = 'b') :
    parseCount (String.mk (ds ++ [u])) =
      some ((digitsVal ds : ℚ) * multiplier u) := by
  have hnorm : normalizeCount (ds ++ [u]) = ds ++ [u] := by
    refine normalizeCount_id _ (fun c hc => ?_)
    rcases List.mem_append.mp hc with h | h
    · exact Or.inl (hdig c h)
    · simp at h
      subst h
      rcases hu with h | h | h
      · exact Or.inr (Or.inr (Or.inl h))
      · exact Or.inr (Or.inr (Or.inr (Or.inl h)))
      · exact Or.inr (Or.inr (Or.inr (Or.inr h)))
  have hsplit := splitUnit_unit ds u hds
    (fun c hc => digit_isDigitDot c (hdig c hc)) hu
  have hdata : (String.mk (ds ++ [u])).data = ds ++ [u] := rfl
  have hf : parseFloatJS ds = some (digitsVal ds : ℚ) := by
    have h0 := parseFloatJS_int ds [] hds hdig (by intro c hc; simp at hc)
    rw [List.append_nil] at h0
    rw [h0, show parseExponent ([] : List Char) = 0 from rfl]
    norm_num
  rw [parseCount, hdata, hnorm, hsplit]
  simp [hf]

/-- `parseCount` on `<digits>.<digits><unit>`: the exact decimal
value times the unit factor (no rounding). -/
theorem parseCount_dec_units (d1 d2 : List Char) (u : Char)
    (h1 : ∀ c ∈ d1, isDigitC c = true) (h2 : ∀ c ∈ d2, isDigitC c = true)
    (hne : d1 ≠ [] ∨ d2 ≠ []) (hu : u = 'k' ∨ u = 'm' ∨ u = 'b') :
    parseCount (String.mk ((d1 ++ '.' :: d2) ++ [u])) =
      some (((digitsVal d1 : ℚ) + (digitsVal d2 : ℚ) / 10 ^ d2.length)
        * multiplier u) := by
  have hds : d1 ++ '.' :: d2 ≠ [] := by simp
  have hall : ∀ c ∈ d1 ++ '.' :: d2, isDigitDot c = true := by
    intro c hc
    rcases List.mem_append.mp hc with h | h
    · exact digit_isDigitDot c (h1 c h)
    · rcases List.mem_cons.mp h with h | h
      · subst h
        decide
      · exact digit_isDigitDot c (h2 c h)
  have hnorm : normalizeCount ((d1 ++ '.' :: d2) ++ [u]) =
      (d1 ++ '.' :: d2) ++ [u] := by
    refine normalizeCount_id _ (fun c hc => ?_)
    rcases List.mem_append.mp hc with h | h
    · rcases List.mem_append.mp h with h | h
      · exact Or.inl (h1 c h)
      · rcases List.mem_cons.mp h with h | h
        · exact Or.inr (Or.inl h)
        · exact Or.inl (h2 c h)
    · simp at h
      subst h
      rcases hu with h | h | h
      · exact Or.inr (Or.inr (Or.inl h))
      · exact Or.inr (Or.inr (Or.inr (Or.inl h)))
      · exact Or.inr (Or.inr (Or.inr (Or.inr h)))
  have hsplit := splitUnit_unit (d1 ++ '.' :: d2) u hds hall hu
  have hdata : (String.mk ((d1 ++ '.' :: d2) ++ [u])).data =
      (d1 ++ '.' :: d2) ++ [u] := rfl
  have hf : parseFloatJS (d1 ++ '.' :: d2) =
      some ((digitsVal d1 : ℚ) + (digitsVal d2 : ℚ) / 10 ^ d2.length) := by
    have h0 := parseFloatJS_dot d1 d2 [] h1 h2 hne (by intro c hc; simp at hc)
    rw [List.append_nil] at h0
    rw [h0, show parseExponent ([] : List Char) = 0 from rfl]
    norm_num
  rw [parseCount, hdata, hnorm, hsplit]
  simp [hf]

/-- `parseCount` on a bare digit run: its value, no unit factor. -/
theorem parseCount_digits (ds : List Char) (hds : ds ≠ [])
    (hdig : ∀ c ∈ ds, isDigitC c = true) :
    parseCount (String.mk ds) = some ((digitsVal ds : ℚ)) := by
  have hnorm : normalizeCount ds = ds :=
    normalizeCount_id _ (fun c hc => Or.inl (hdig c hc))
  have hsplit := splitUnit_nounit ds hds
    (fun c hc => digit_isDigitDot c (hdig c hc))
  have hdata : (String.mk ds).data = ds := rfl
  have hf : parseFloatJS ds = some (digitsVal ds : ℚ) := by
    have h0 := parseFloatJS_int ds [] hds hdig (by intro c hc; simp at hc)
    rw [List.append_nil] at h0
    rw [h0, show parseExponent ([] : List Char) = 0 from rfl]
    norm_num
  rw [parseCount, hdata, hnorm, hsplit]
  simp [hf]

/-- `parseCount` on `<digits>.<digits>` without unit: the exact
decimal value (possibly non-integral). -/
theorem parseCount_dec (d1 d2 : List Char)
    (h1 : ∀ c ∈ d1, isDigitC c = true) (h2 : ∀ c ∈ d2, isDigitC c = true)
    (hne : d1 ≠ [] ∨ d2 ≠ []) :
    parseCount (String.mk (d1 ++ '.' :: d2)) =
      some ((digitsVal d1 : ℚ) + (digitsVal d2 : ℚ) / 10 ^ d2.length) := by
  have hds : d1 ++ '.' :: d2 ≠ [] := by simp
  have hall : ∀ c ∈ d1 ++ '.' :: d2, isDigitDot c = true := by
    intro c hc
    rcases List.mem_append.mp hc with h | h
    · exact digit_isDigitDot c (h1 c h)
    · rcases List.mem_cons.mp h with h | h
      · subst h
        decide
      · exact digit_isDigitDot c (h2 c h)
  have hnorm : normalizeCount (d1 ++ '.' :: d2) = d1 ++ '.' :: d2 := by
    refine normalizeCount_id _ (fun c hc => ?_)
    rcases List.mem_append.mp hc with h | h
    · exact Or.inl (h1 c h)
    · rcases List.mem_cons.mp h with h | h
      · exact Or.inr (Or.inl h)
      · exact Or.inl (h2 c h)
  have hsplit := splitUnit_nounit (d1 ++ '.' :: d2) hds hall
  have hdata : (String.mk (d1 ++ '.' :: d2)).data = d1 ++ '.' :: d2 := rfl
  have hf : parseFloatJS (d1 ++ '.' :: d2) =
      some ((digitsVal d1 : ℚ) + (digitsVal d2 : ℚ) / 10 ^ d2.length) := by
    have h0 := parseFloatJS_dot d1 d2 [] h1 h2 hne (by intro c hc; simp at hc)
    rw [List.append_nil] at h0
    rw [h0, show parseExponent ([] : List Char) = 0 from rfl]
    norm_num
  rw [parseCount, hdata, hnorm, hsplit]
  simp [hf]

/-! ## Helper lemmas: hashtag scan and per-post loop -/

/-- Removing the first character cannot create a `#token`
occurrence. -/
theorem hasTagOcc_tail (c : Char) (rest : List Char)
    (h : hasTagOcc (c :: rest) = false) : hasTagOcc rest = false := by
  cases rest with
  | nil => rfl
  | cons c2 r =>
    rw [hasTagOcc] at h
    exact (Bool.or_eq_false_iff.mp h).2

/-- The scan finds nothing on a text with no `#token` occurrence. -/
theorem extractHashtagsAux_of_noTag (l : List Char)
    (h : hasTagOcc l = false) : extractHashtagsAux l = [] := by
  induction l using extractHashtagsAux.induct with
  | case1 => rw [extractHashtagsAux]
  | case2 rest run hrun ih =>
    unfold run at hrun
    rw [extractHashtagsAux]
    simp only [if_pos rfl, hrun, if_true]
    exact ih (hasTagOcc_tail _ _ h)
  | case3 rest run hrun ih =>
    exfalso
    unfold run at hrun
    cases rest with
    | nil => simp at hrun
    | cons r0 r1 =>
      rw [List.takeWhile_cons] at hrun
      by_cases hw : isWordChar r0 = true
      · rw [hasTagOcc] at h
        simp [hw] at h
      · rw [if_neg hw] at hrun
        simp at hrun
  | case4 c rest hc ih =>
    rw [extractHashtagsAux]
    rw [if_neg hc]
    exact ih (hasTagOcc_tail _ _ h)

/-- A successfully processed link yields a record whose `postUrl` is
that link. -/
theorem processPost_ok_url (fetch : String → Except Unit PostPageView)
    (l : String) (pd : PostData) (h : processPost fetch l = .ok pd) :
    pd.postUrl = l := by
  rw [processPost] at h
  cases hf : fetch l with
  | error e =>
    rw [hf] at h
    exact absurd h (by simp)
  | ok v =>
    rw [hf] at h
    have := Except.ok.inj h
    rw [← this]

/-- When every link processes successfully, the loop yields one
record per link. -/
theorem processPosts_all_ok_length (fetch : String → Except Unit PostPageView)
    (ys : List String) (h : ∀ l ∈ ys, (processPost fetch l).isOk = true) :
    (processPosts fetch ys).length = ys.length := by
  induction ys with
  | nil => rfl
  | cons a t ih =>
    rw [processPosts]
    cases hp : processPost fetch a with
    | ok pd =>
      simp only [List.length_cons]
      rw [ih (fun l hl => h l (List.mem_cons_of_mem a hl))]
    | error e =>
      have := h a (List.mem_cons_self a t)
      rw [hp] at this
      exact absurd this (by simp [Except.isOk, Except.toBool])
  
/-- The loop never yields more records than links. -/
theorem processPosts_length_le (fetch : String → Except Unit PostPageView)
    (ls : List String) : (processPosts fetch ls).length ≤ ls.length := by
  induction ls with
  | nil => simp [processPosts]
  | cons a t ih =>
    rw [processPosts]
    cases processPost fetch a with
    | ok pd =>
      simp only [List.length_cons]
      omega
    | error e =>
      simp only [List.length_cons]
      omega

/-- The record URLs form a subsequence of the traversed links. -/
theorem processPosts_urls_sublist (fetch : String → Except Unit PostPageView)
    (ls : List String) :
    ((processPosts fetch ls).map PostData.postUrl).Sublist ls := by
  induction ls with
  | nil => simp [processPosts]
  | cons a t ih =>
    rw [processPosts]
    cases hp : processPost fetch a with
    | ok pd =>
      rw [List.map_cons, processPost_ok_url fetch a pd hp]
      exact ih.cons₂ a
    | error e =>
      exact ih.cons a

/-! ## Helper lemmas: concrete parser evaluations -/

/-- `parseCount(".")` is `NaN`: the regex accepts a bare dot but
`parseFloat(".")` finds no digit. -/
theorem parseCount_dotNaN : parseCount "." = none := by
  have h2 : splitUnit (normalizeCount ".".data) = some (['.'], none) := by decide
  have h3 : parseFloatJS ['.'] = none := by decide
  rw [parseCount, h2]
  exact h3

/-- `parseCount("1.5")` is the non-integral `3/2`. -/
theorem parseCount_threeHalves : parseCount "1.5" = some (3 / 2) := by
  have h := parseCount_dec ['1'] ['5'] (by decide) (by decide)
    (Or.inl (by decide))
  have hs : "1.5" = String.mk (['1'] ++ '.' :: ['5']) := by decide
  rw [hs, h]
  have v1 : digitsVal ['1'] = 1 := by decide
  have v2 : digitsVal ['5'] = 5 := by decide
  rw [v1, v2]
  norm_num

/-- `parseLikeCount("2b")` ignores the `b` suffix and returns 2. -/
theorem parseLikeCount_2b : parseLikeCount "2b" = some 2 := by
  have hc : cleanLike "2b".data = ['2', 'b'] := by decide
  have hk : (['2', 'b'] : List Char).contains 'k' = false := by decide
  have hm : (['2', 'b'] : List Char).contains 'm' = false := by decide
  have hp : parseIntNoRadix ['2', 'b'] = some 2 := by decide
  rw [parseLikeCount]
  rw [hc, hk, hm, hp]
  norm_num

/-! ## Claim C3: post-type classifier precedence -/

/-- **C3.** The classifier decides in fixed precedence order: a video
element forces `video`; else a "Next" control forces `carousel`; else
the reel signal forces `reel`; else `image`.  In particular the four
signal configurations {video present}, {next present, no video},
{reel signal only}, {none} yield video, carousel, reel, image. -/
theorem determinePostType_precedence :
    (∀ s : DomSignals, s.hasVideo = true → determinePostType s = .video) ∧
    (∀ s : DomSignals, s.hasVideo = false → s.hasNext = true →
      determinePostType s = .carousel) ∧
    (∀ s : DomSignals, s.hasVideo = false → s.hasNext = false →
      s.hasReelSignal = true → determinePostType s = .reel) ∧
    determinePostType ⟨false, false, false⟩ = .image := by
  refine ⟨?_, ?_, ?_, rfl⟩
  · intro s h
    simp [determinePostType, h]
  · intro s h1 h2
    simp [determinePostType, h1, h2]
  · intro s h1 h2 h3
    simp [determinePostType, h1, h2, h3]

/-- Witness for C3: concrete evaluations discharging each hypothesis. -/
theorem determinePostType_precedence_witness :
    determinePostType ⟨true, false, false⟩ = .video ∧
    determinePostType ⟨false, true, false⟩ = .carousel ∧
    determinePostType ⟨false, false, true⟩ = .reel :=
  ⟨determinePostType_precedence.1 ⟨true, false, false⟩ rfl,
   determinePostType_precedence.2.1 ⟨false, true, false⟩ rfl rfl,
   determinePostType_precedence.2.2.1 ⟨false, false, true⟩ rfl rfl rfl⟩

/-! ## Claim C9: closing never-opened / already-closed sessions -/

/-- **C9.** Calling `close` on a never-opened session (no browser
handle) leaves the state unchanged; calling it again after a close is
also a no-op (it fixes the closed-handle state, and is idempotent on
every state).  Being a total function of the state — the external
`browser.close()` of the driven capability does not throw — it raises
no error. -/
theorem closeSession_noop :
    closeSession ⟨none⟩ = ⟨none⟩ ∧
    closeSession ⟨some ⟨false⟩⟩ = ⟨some ⟨false⟩⟩ ∧
    (∀ s : ScraperState, closeSession (closeSession s) = closeSession s) := by
  refine ⟨rfl, rfl, ?_⟩
  intro s
  cases s with
  | mk b => cases b <;> rfl

/-! ## Claim C2: attempt count, first success, last error -/

/-- **C2.** The retry runner executes the operation at most
`maxAttempts` (= `retries`) times; when the first success happens at
attempt index `k` (0-based) it returns that success value after
exactly `k + 1` executions (so an operation failing twice then
succeeding returns the success using exactly 3 attempts); and when
every attempt fails it propagates the error of the final attempt
(index `retries - 1`), discarding the earlier errors, after exactly
`retries` executions. -/
theorem retryOperation_attempts {E T : Type} :
    (∀ (op : ℤ → Except E T) (retries : ℤ) (delay : ℕ),
      (retryOperation op retries delay).calls ≤ retries.toNat) ∧
    (∀ (op : ℤ → Except E T) (err : ℤ → E) (k : ℤ) (v : T) (retries : ℤ)
      (delay : ℕ), 0 ≤ k → k < retries →
      (∀ j, 0 ≤ j → j < k → op j = .error (err j)) → op k = .ok v →
      (retryOperation op retries delay).result = .ok v ∧
      (retryOperation op retries delay).calls = k.toNat + 1) ∧
    (∀ (op : ℤ → Except E T) (err : ℤ → E) (retries : ℤ) (delay : ℕ),
      0 < retries → (∀ j, 0 ≤ j → j < retries → op j = .error (err j)) →
      (retryOperation op retries delay).result =
        .error (some (err (retries - 1))) ∧
      (retryOperation op retries delay).calls = retries.toNat) := by
  refine ⟨?_, ?_, ?_⟩
  · intro op retries delay
    have h := retryAux_calls_le op retries 0 none delay
    simpa [retryOperation] using h
  · intro op err k v retries delay hk0 hkr hfail hok
    have h := retryAux_firstSuccess op retries err k v 0 none delay
      (by omega) hkr (fun j hj1 hj2 => hfail j hj1 hj2) hok
    rw [retryOperation, h]
    exact ⟨rfl, by simp⟩
  · intro op err retries delay hr hall
    have h := retryAux_allFail op retries err 0 none delay hr
      (fun j hj1 hj2 => hall j hj1 hj2)
    rw [retryOperation, h]
    exact ⟨rfl, by simp⟩

/-- Witness for C2: `opFailTwice` under 3 allowed attempts returns
`42` using exactly 3 executions, and `opAlwaysFail` under 3 allowed
attempts propagates attempt 2's error after exactly 3 executions. -/
theorem retryOperation_attempts_witness :
    (retryOperation opFailTwice 3 1000).result = .ok 42 ∧
    (retryOperation opFailTwice 3 1000).calls = 3 ∧
    (retryOperation opAlwaysFail 3 1000).result = .error (some 2) ∧
    (retryOperation opAlwaysFail 3 1000).calls = 3 := by
  have h1 := retryOperation_attempts.2.1 opFailTwice
    (fun j => (1000 + j).toNat) 2 42 3 1000 (by decide) (by decide)
    (fun j _ hj2 => by simp [opFailTwice, hj2]) (by simp [opFailTwice])
  have h2 := retryOperation_attempts.2.2 opAlwaysFail (fun j => j.toNat)
    3 1000 (by decide) (fun j _ _ => rfl)
  exact ⟨h1.1, h1.2.trans (by decide), h2.1, h2.2.trans (by decide)⟩

/-! ## Claim C8: exponential backoff wait schedule -/

/-- **C8.** For an operation that keeps failing, the runner's waits
are exactly `delay, 2·delay, 4·delay, …` (the geometric schedule), so
the first wait — the one before the second attempt — equals
`initialDelay`, the waits are non-decreasing, and there are exactly
`maxAttempts - 1` of them: no wait occurs after the final failure. -/
theorem retryOperation_backoff {E T : Type}
    (op : ℤ → Except E T) (err : ℤ → E) (retries : ℤ) (delay : ℕ)
    (hr : 0 < retries)
    (hall : ∀ j, 0 ≤ j → j < retries → op j = .error (err j)) :
    (retryOperation op retries delay).waits =
      (List.range (retries.toNat - 1)).map (fun k => delay * 2 ^ k) ∧
    (retryOperation op retries delay).waits.length = retries.toNat - 1 ∧
    (1 < retries → (retryOperation op retries delay).waits.head? = some delay) ∧
    List.Pairwise (· ≤ ·) (retryOperation op retries delay).waits := by
  have h := retryAux_allFail op retries err 0 none delay hr
    (fun j hj1 hj2 => hall j hj1 hj2)
  have hn : (retries - 1 - 0).toNat = retries.toNat - 1 := by omega
  rw [retryOperation, h]
  simp only [hn]
  refine ⟨by trivial, by simp, ?_, ?_⟩
  · intro h2
    have hm : retries.toNat - 1 = (retries.toNat - 2) + 1 := by omega
    rw [hm, List.range_succ_eq_map]
    simp
  · refine List.Pairwise.map _ ?_ (List.pairwise_lt_range _)
    intro a b hab
    exact Nat.mul_le_mul_left delay (Nat.pow_le_pow_right (by norm_num) (by omega))

/-- Witness for C8: `opAlwaysFail` under 3 allowed attempts and
initial delay 1000 waits exactly `[1000, 2000]`. -/
theorem retryOperation_backoff_witness :
    (retryOperation opAlwaysFail 3 1000).waits = [1000, 2000] :=
  ((retryOperation_backoff opAlwaysFail (fun j => j.toNat) 3 1000
    (by decide) (fun j _ _ => rfl)).1).trans (by decide)

/-! ## Claim C10: non-positive attempt count throws `undefined` -/

/-- **C10.** With `retries ≤ 0` the loop body never runs: the
operation is executed 0 times, no wait happens, and the runner throws
the uninitialized `lastError` — JS `undefined`, modelled
`.error none` — so the rejection carries no error object at all. -/
theorem retryOperation_nonpositive {E T : Type} (op : ℤ → Except E T)
    (retries : ℤ) (delay : ℕ) (h : retries ≤ 0) :
    retryOperation op retries delay = ⟨.error none, 0, []⟩ := by
  rw [retryOperation, retryAux]
  have hn : ¬ ((0 : ℤ) < retries) := by omega
  simp [hn]

/-- Witness for C10: even an always-succeeding operation is never
executed when `retries = 0`; the runner throws `undefined`. -/
theorem retryOperation_nonpositive_witness :
    retryOperation opNever 0 1000 = ⟨.error none, 0, []⟩ :=
  retryOperation_nonpositive opNever 0 1000 (by decide)

/-! ## Claim C1: the count parsers -/

/-- **C1** counterexample.  The claim fails on the code in three
ways.  (1) The input `"."` is unparseable (no digit), yet `parseCount`
returns `NaN` (`none`), not 0: the regex `^([\d.]+)([kmb])?$` accepts
a bare dot and `parseFloat(".")` is `NaN`.  (2) On the valid input
`"1.5"` the result `3/2` is the exact product, not rounded to any
integer — no variant rounds.  (3) `parseLikeCount` of `src/index.ts`
has no `b` unit at all: `"2b"` falls through to `parseInt` and yields
2, not 2·10⁹. -/
theorem parseCount_claim_counterexample :
    parseCount "." = none ∧
    ¬ parseCount "." = some 0 ∧
    parseCount "1.5" = some (3 / 2) ∧
    (3 / 2 : ℚ) ∉ Set.range (Int.cast : ℤ → ℚ) ∧
    parseLikeCount "2b" = some 2 ∧
    ¬ parseLikeCount "2b" = some 2000000000 := by
  refine ⟨parseCount_dotNaN, ?_, parseCount_threeHalves, ?_, parseLikeCount_2b, ?_⟩
  · rw [parseCount_dotNaN]
    simp
  · rintro ⟨n, hn⟩
    have h2 : (n : ℚ) * 2 = 3 := by
      rw [hn]
      norm_num
    have h3 : ((n * 2 : ℤ) : ℚ) = ((3 : ℤ) : ℚ) := by
      push_cast
      linarith
    have h4 : n * 2 = 3 := by
      exact_mod_cast h3
    omega
  · rw [parseLikeCount_2b]
    simp only [Option.some.injEq]
    norm_num

/-- **C1** (amended).  After lower-casing and comma-stripping,
`parseCount` maps every string of the regex shape
`digits [. digits] [k|m|b]` (with at least one digit) to the exact
decimal value times the unit factor (k=10³, m=10⁶, b=10⁹; factor 1
without unit) — exactly, with no rounding, so the result can be
non-integral; every string the regex rejects yields 0; a regex-accepted
numeric part without any digit (such as `"."`) yields `NaN`; and the
parser is a total function (never throws).  The spec's sample values
hold: `parse("0")=0`, `parse("1,234")=1234`, `parse("12.3k")=12300`,
`parse("2m")=2000000`, `parse("")=0`, `parse("abc")=0`. -/
theorem parseCount_spec :
    (∀ (ds : List Char) (u : Char), ds ≠ [] → (∀ c ∈ ds, isDigitC c = true) →
      (u = 'k' ∨ u = 'm' ∨ u = 'b') →
      parseCount (String.mk (ds ++ [u])) =
        some ((digitsVal ds : ℚ) * multiplier u)) ∧
    (∀ (d1 d2 : List Char) (u : Char), (∀ c ∈ d1, isDigitC c = true) →
      (∀ c ∈ d2, isDigitC c = true) → (d1 ≠ [] ∨ d2 ≠ []) →
      (u = 'k' ∨ u = 'm' ∨ u = 'b') →
      parseCount (String.mk ((d1 ++ '.' :: d2) ++ [u])) =
        some (((digitsVal d1 : ℚ) + (digitsVal d2 : ℚ) / 10 ^ d2.length)
          * multiplier u)) ∧
    (∀ ds : List Char, ds ≠ [] → (∀ c ∈ ds, isDigitC c = true) →
      parseCount (String.mk ds) = some ((digitsVal ds : ℚ))) ∧
    parseCount "0" = some 0 ∧
    parseCount "1,234" = some 1234 ∧
    parseCount "12.3k" = some 12300 ∧
    parseCount "2m" = some 2000000 ∧
    parseCount "" = some 0 ∧
    parseCount "abc" = some 0 ∧
    parseCount "1.5" = some (3 / 2) ∧
    parseCount "." = none := by
  refine ⟨parseCount_units, parseCount_dec_units, parseCount_digits,
    ?_, ?_, ?_, ?_, ?_, ?_, parseCount_threeHalves, parseCount_dotNaN⟩
  · have h := parseCount_digits ['0'] (by decide) (by decide)
    have hs : "0" = String.mk ['0'] := by decide
    rw [hs, h]
    have v : digitsVal ['0'] = 0 := by decide
    rw [v]
    norm_num
  · have h1 : splitUnit (normalizeCount "1,234".data) =
        some (['1', '2', '3', '4'], none) := by decide
    have hf : parseFloatJS ['1', '2', '3', '4'] =
        some ((digitsVal ['1', '2', '3', '4'] : ℚ)) := by
      have h0 := parseFloatJS_int ['1', '2', '3', '4'] [] (by decide)
        (by decide) (by intro c hc; simp at hc)
      rw [List.append_nil] at h0
      rw [h0, show parseExponent ([] : List Char) = 0 from rfl]
      norm_num
    rw [parseCount, h1]
    show parseFloatJS ['1', '2', '3', '4'] = some 1234
    rw [hf]
    have v : digitsVal ['1', '2', '3', '4'] = 1234 := by decide
    rw [v]
    norm_num
  · have h := parseCount_dec_units ['1', '2'] ['3'] 'k' (by decide) (by decide)
      (Or.inl (by decide)) (Or.inl rfl)
    have hs : "12.3k" = String.mk ((['1', '2'] ++ '.' :: ['3']) ++ ['k']) := by
      decide
    rw [hs, h]
    have v1 : digitsVal ['1', '2'] = 12 := by decide
    have v2 : digitsVal ['3'] = 3 := by decide
    have vm : multiplier 'k' = 1000 := by simp +decide [multiplier]
    rw [v1, v2, vm]
    norm_num
  · have h := parseCount_units ['2'] 'm' (by decide) (by decide)
      (Or.inr (Or.inl rfl))
    have hs : "2m" = String.mk (['2'] ++ ['m']) := by decide
    rw [hs, h]
    have v : digitsVal ['2'] = 2 := by decide
    have vm : multiplier 'm' = 1000000 := by simp +decide [multiplier]
    rw [v, vm]
    norm_num
  · have h1 : splitUnit (normalizeCount "".data) = none := by decide
    rw [parseCount, h1]
  · have h1 : splitUnit (normalizeCount "abc".data) = none := by decide
    rw [parseCount, h1]

/-- Witness for C1: the amended theorem applied at `"57k"`. -/
theorem parseCount_spec_witness :
    parseCount (String.mk (['5', '7'] ++ ['k'])) =
      some ((digitsVal ['5', '7'] : ℚ) * multiplier 'k') :=
  parseCount_spec.1 ['5', '7'] 'k' (by decide) (by decide) (Or.inl rfl)

/-! ## Claim C5: follower/following count derivation -/

/-- **C5** counterexample.  In the `src/index.ts` variant the header
text is fed to `parseInt(text, 10)`, not to the abbreviated-count
normalizer: the text `"12.3k"` yields 12, not 12300; a text `"-5"`
yields the negative −5, so the counts are not guaranteed
non-negative.  In the `part_000` variant the text `"."` yields `NaN`
(`none`), not a non-negative integer. -/
theorem followersCount_counterexample :
    followersFromHeader (some "12.3k") = some 12 ∧
    ¬ followersFromHeader (some "12.3k") = some 12300 ∧
    followersFromHeader (some "-5") = some (-5) ∧
    followersFromHeaderAlt (some ".") = none := by
  refine ⟨by decide, by decide, by decide, ?_⟩
  have ht : textOrZero "." = "." := by decide
  show parseCount (textOrZero ".") = none
  rw [ht]
  exact parseCount_dotNaN

/-- **C5** (amended).  In the `src/index.ts` variant,
`followersCount`/`followingCount` are `parseInt(text, 10)` of the raw
header text: on an all-digit text this is its non-negative value, but
a trailing abbreviation is truncated away (`"12.3k"` → 12, not
12300), a signed text can be negative, and a missing element or empty
text yields 0.  In the `part_000` variant the text goes through the
abbreviated-count parser, so `"12.3k"` → 12300 there. -/
theorem followersCount_amended :
    (∀ ds : List Char, ds ≠ [] → (∀ c ∈ ds, isDigitC c = true) →
      followersFromHeader (some (String.mk ds)) = some ((digitsVal ds : ℤ)) ∧
      0 ≤ ((digitsVal ds : ℤ))) ∧
    followersFromHeader none = some 0 ∧
    followersFromHeader (some "") = some 0 ∧
    followersFromHeader (some "12.3k") = some 12 ∧
    followersFromHeaderAlt (some "12.3k") = some 12300 := by
  refine ⟨?_, by decide, by decide, by decide, ?_⟩
  · intro ds hds hdig
    refine ⟨?_, by positivity⟩
    have hne : String.mk ds ≠ "" := by
      intro h
      rw [show ("" : String) = String.mk [] from rfl] at h
      exact hds (by injection h)
    show parseIntRadix10 (textOrZero (String.mk ds)) = some ((digitsVal ds : ℤ))
    rw [textOrZero, if_neg hne]
    have hhead : ∀ c, ds.head? = some c → isDigitC c = true := by
      intro c hc
      cases ds with
      | nil => exact absurd rfl hds
      | cons a t =>
        simp at hc
        rw [← hc]
        exact hdig a (List.mem_cons_self a t)
    have hws : ds.dropWhile jsWhitespace = ds :=
      dropWhile_head_false _ _ (fun c hc => digit_not_ws c (hhead c hc))
    have hsgn : splitSign ds = (false, ds) :=
      splitSign_no_sign _ (fun c hc =>
        ⟨digit_ne_plus c (hhead c hc), digit_ne_minus c (hhead c hc)⟩)
    have htake : ds.takeWhile isDigitC = ds := by
      have h0 := takeWhile_all_append isDigitC ds [] hdig
        (by intro c hc; simp at hc)
      rwa [List.append_nil] at h0
    have hde : ds.isEmpty = false := by
      cases ds with
      | nil => exact absurd rfl hds
      | cons a t => rfl
    rw [parseIntRadix10]
    simp only [hws, hsgn, htake, hde, Bool.false_eq_true, if_false]
    simp
  · have ht : textOrZero "12.3k" = "12.3k" := by decide
    show parseCount (textOrZero "12.3k") = some 12300
    rw [ht]
    have h := parseCount_dec_units ['1', '2'] ['3'] 'k' (by decide) (by decide)
      (Or.inl (by decide)) (Or.inl rfl)
    have hs : "12.3k" = String.mk ((['1', '2'] ++ '.' :: ['3']) ++ ['k']) := by
      decide
    rw [hs, h]
    have v1 : digitsVal ['1', '2'] = 12 := by decide
    have v2 : digitsVal ['3'] = 3 := by decide
    have vm : multiplier 'k' = 1000 := by simp +decide [multiplier]
    rw [v1, v2, vm]
    norm_num

/-- Witness for C5: the amended theorem applied at the all-digit
header text `"200"`. -/
theorem followersCount_amended_witness :
    followersFromHeader (some (String.mk ['2', '0', '0'])) =
      some ((digitsVal ['2', '0', '0'] : ℤ)) ∧
    0 ≤ ((digitsVal ['2', '0', '0'] : ℤ)) :=
  followersCount_amended.1 ['2', '0', '0'] (by decide) (by decide)

/-! ## Claim C6: sample-size bound and traversal order -/

/-- **C6.** The posts sequence built by `scrapeUserProfile` has
length at most the fixed sample size 4, and its insertion order
follows the traversal order of the collected links: the sequence of
`postUrl`s is a subsequence of the DOM-ordered link list. -/
theorem scrapePosts_bounded_ordered :
    ∀ (fetch : String → Except Unit PostPageView) (domLinks : List String),
      (scrapePostsSection fetch domLinks).length ≤ 4 ∧
      ((scrapePostsSection fetch domLinks).map PostData.postUrl).Sublist
        domLinks := by
  intro fetch domLinks
  constructor
  · calc (processPosts fetch (collectPostLinks domLinks)).length
        ≤ (collectPostLinks domLinks).length := processPosts_length_le _ _
      _ ≤ 4 := by
          simp [collectPostLinks, List.length_take]
  · refine List.Sublist.trans (processPosts_urls_sublist _ _) ?_
    simpa [collectPostLinks] using List.take_sublist 4 domLinks

/-! ## Claim C7: hashtag extraction -/

/-- **C7.** The hashtag extractor returns the empty sequence on every
input with zero `#token` occurrences; on `"#a #b #a"` it returns the
matches in order of appearance without deduplication,
`["#a", "#b", "#a"]`; and it is a total function (never an error). -/
theorem extractHashtags_spec :
    (∀ s : String, hasTagOcc s.data = false → extractHashtags s = []) ∧
    extractHashtags "#a #b #a" = ["#a", "#b", "#a"] := by
  constructor
  · intro s h
    exact extractHashtagsAux_of_noTag s.data h
  · show extractHashtagsAux "#a #b #a".data = _
    simp +decide [extractHashtagsAux]

/-- Witness for C7: a text with a `#` not followed by a word
character has zero occurrences and extracts nothing. -/
theorem extractHashtags_spec_witness :
    extractHashtags "no tags here, # alone" = [] :=
  extractHashtags_spec.1 "no tags here, # alone" (by decide)

/-! ## Claim C4: partial failure in the per-post loop -/

/-- **C4.** When exactly one of the collected links always fails —
every link before and after it processes successfully — the loop
produces one record fewer than the number of links (the failing link
is skipped after its error is caught) and is unchanged by deleting
the failing link, so the surviving records keep the relative order of
the remaining links; the loop is a total function, so the per-link
failure never propagates to the caller. -/
theorem processPosts_partial_failure :
    ∀ (fetch : String → Except Unit PostPageView) (xs ys : List String)
      (bad : String),
      (∀ l ∈ xs, (processPost fetch l).isOk = true) →
      (processPost fetch bad).isOk = false →
      (∀ l ∈ ys, (processPost fetch l).isOk = true) →
      (processPosts fetch (xs ++ bad :: ys)).length + 1 =
        (xs ++ bad :: ys).length ∧
      processPosts fetch (xs ++ bad :: ys) = processPosts fetch (xs ++ ys) := by
  intro fetch xs ys bad hxs hbad hys
  induction xs with
  | nil =>
    simp only [List.nil_append]
    rw [processPosts]
    cases hp : processPost fetch bad with
    | ok pd =>
      rw [hp] at hbad
      exact absurd hbad (by simp [Except.isOk, Except.toBool])
    | error e =>
      constructor
      · rw [processPosts_all_ok_length fetch ys hys]
        simp
      · rfl
  | cons a t ih =>
    have ha := hxs a (List.mem_cons_self a t)
    have iht := ih (fun l hl => hxs l (List.mem_cons_of_mem a hl))
    simp only [List.cons_append]
    rw [processPosts, processPosts]
    cases hp : processPost fetch a with
    | ok pd =>
      refine ⟨?_, ?_⟩
      · simp only [List.length_cons]
        have := iht.1
        omega
      · rw [iht.2]
    | error e =>
      rw [hp] at ha
      exact absurd ha (by simp [Except.isOk, Except.toBool])

/-- Witness for C4: with the demonstration oracle failing exactly on
`"bad"`, three collected links yield two records, identical to
processing the two good links. -/
theorem processPosts_partial_failure_witness :
    (processPosts fetchDemo (["a"] ++ "bad" :: ["b"])).length + 1 =
      (["a"] ++ "bad" :: ["b"]).length ∧
    processPosts fetchDemo (["a"] ++ "bad" :: ["b"]) =
      processPosts fetchDemo (["a"] ++ ["b"]) :=
  processPosts_partial_failure fetchDemo ["a"] ["b"] "bad"
    (by decide) (by decide) (by decide)
